import Mathlib

/-!
Verification of the Book_repo collection reducer and view projections.

The program keeps a list of book records and mutates it only through a
four-case reducer (`ADD_BOOK`, `UPDATE_BOOK`, `DELETE_BOOK`, `SET_BOOKS`).
Derived views are a case-insensitive substring filter, a pagination slice,
a page count, and a bounded page-navigation step.  Each definition below
embeds the corresponding TypeScript function; theorems establish the
documented properties of those definitions.
-/

namespace BookRepo

/-- A book record: identifier, title, author, publication year.
Embeds the `Book` interface (`id: number; title: string; author: string;
year: number`). -/
structure Book where
  id : Nat
  title : String
  author : String
  year : Int
deriving DecidableEq, Repr

/-- The four reducer actions (`ActionType` union in the source). -/
inductive ActionType where
  | ADD_BOOK (book : Book)
  | UPDATE_BOOK (book : Book)
  | DELETE_BOOK (id : Nat)
  | SET_BOOKS (books : List Book)

/-- The collection reducer `bookReducer(state, action)`:
`ADD_BOOK` appends, `UPDATE_BOOK` maps records with the matching id to the
new record, `DELETE_BOOK` filters out records with the given id,
`SET_BOOKS` replaces the whole list. -/
def bookReducer (state : List Book) (action : ActionType) : List Book :=
  match action with
  | ActionType.ADD_BOOK book => state ++ [book]
  | ActionType.UPDATE_BOOK b =>
      state.map fun book => if book.id == b.id then b else book
  | ActionType.DELETE_BOOK id => state.filter fun book => book.id != id
  | ActionType.SET_BOOKS books => books

/-- JavaScript `String.prototype.toLowerCase`, modelled characterwise. -/
def jsToLower (s : String) : String := ⟨s.data.map Char.toLower⟩

/-- Helper for `substrMatch`: does the pattern occur at the head of the list? -/
def prefixMatch : List Char → List Char → Bool
  | [], _ => true
  | _ :: _, [] => false
  | p :: ps, c :: cs => p == c && prefixMatch ps cs

/-- Does the pattern occur as a contiguous run anywhere in the list? -/
def substrMatch (pat : List Char) : List Char → Bool
  | [] => pat.isEmpty
  | c :: cs => prefixMatch pat (c :: cs) || substrMatch pat cs

/-- JavaScript `s.includes(pat)`: substring containment. -/
def jsIncludes (s pat : String) : Bool := substrMatch pat.data s.data

/-- The title-only search filter (`filteredBooks` in the local-storage
revision): keep the books whose lowercased title contains the lowercased
search text. -/
def filteredBooks (books : List Book) (search : String) : List Book :=
  books.filter fun book => jsIncludes (jsToLower book.title) (jsToLower search)

/-- The three-field search filter (`filteredBooks` in the axios revision):
keep the books whose lowercased title or lowercased author contains the
lowercased search text, or whose year rendered as decimal text contains the
raw search text. -/
def filteredBooksAll (books : List Book) (search : String) : List Book :=
  books.filter fun book =>
    jsIncludes (jsToLower book.title) (jsToLower search) ||
    jsIncludes (jsToLower book.author) (jsToLower search) ||
    jsIncludes (toString book.year) search

/-- The page slice (`currentBooks`): JavaScript
`filtered.slice(indexOfFirstBook, indexOfLastBook)` where
`indexOfLastBook = currentPage * booksPerPage` and
`indexOfFirstBook = indexOfLastBook - booksPerPage`;
`slice(a, b)` keeps the elements at indices in `[a, b)`. -/
def currentBooks (filtered : List Book) (currentPage booksPerPage : Nat) :
    List Book :=
  let indexOfLastBook := currentPage * booksPerPage
  let indexOfFirstBook := indexOfLastBook - booksPerPage
  (filtered.take indexOfLastBook).drop indexOfFirstBook

/-- The page count (`totalPages`): JavaScript
`Math.ceil(filteredBooks.length / booksPerPage)`, with the exact real
division embedded as rational division. -/
def totalPages (filteredLength booksPerPage : Nat) : Int :=
  ⌈(filteredLength : ℚ) / (booksPerPage : ℚ)⌉

/-- The two pagination directions accepted by `paginate`. -/
inductive Direction where
  | next
  | prev

/-- The pagination step (`paginate`): move to the next page only while
`currentPage < totalPages`, move to the previous page only while
`currentPage > 1`, otherwise leave the page unchanged. -/
def paginate (currentPage pageCount : Nat) : Direction → Nat
  | Direction.next =>
      if currentPage < pageCount then currentPage + 1 else currentPage
  | Direction.prev =>
      if 1 < currentPage then currentPage - 1 else currentPage

/-- The first record of the worked example in the specification. -/
def duneBook : Book := ⟨1, "Dune", "Herbert", 1965⟩

/-- The second record of the worked example in the specification. -/
def emmaBook : Book := ⟨2, "Emma", "Austen", 1815⟩

theorem prefixMatch_iff (p l : List Char) :
    prefixMatch p l = true ↔ p <+: l := by
  induction p generalizing l with
  | nil => simp [prefixMatch, List.nil_prefix]
  | cons a ps ih =>
      cases l with
      | nil => simp [prefixMatch, List.prefix_nil]
      | cons c cs =>
          simp [prefixMatch, List.cons_prefix_cons, ih]

theorem substrMatch_iff (p l : List Char) :
    substrMatch p l = true ↔ p <:+: l := by
  induction l with
  | nil =>
      cases p with
      | nil => simp [substrMatch]
      | cons a as => simp [substrMatch]
  | cons c cs ih =>
      simp [substrMatch, List.infix_cons_iff, prefixMatch_iff, ih,
        Bool.or_eq_true]

theorem substrMatch_nil (l : List Char) : substrMatch [] l = true :=
  (substrMatch_iff [] l).mpr List.nil_infix

theorem jsIncludes_iff (s pat : String) :
    jsIncludes s pat = true ↔ pat.data <:+: s.data :=
  substrMatch_iff pat.data s.data

theorem jsIncludes_empty (s : String) : jsIncludes s "" = true :=
  substrMatch_nil s.data

theorem jsToLower_empty : jsToLower "" = "" := rfl

theorem totalPages_eq (n s : Nat) (hs : 0 < s) :
    totalPages n s = ((n + s - 1) / s : Nat) := by
  obtain ⟨q, hq⟩ : ∃ q, q = (n + s - 1) / s := ⟨_, rfl⟩
  rw [← hq]
  have hdm := Nat.div_add_mod (n + s - 1) s
  have hmlt := Nat.mod_lt (n + s - 1) hs
  rw [← hq] at hdm
  obtain ⟨P, hP⟩ : ∃ P, P = s * q := ⟨_, rfl⟩
  rw [← hP] at hdm
  have hubN : n ≤ s * q := by rw [← hP]; omega
  have hlbN : s * q < n + s := by rw [← hP]; omega
  have hub' : (n : ℚ) ≤ (s : ℚ) * q := by exact_mod_cast hubN
  have hlb' : (s : ℚ) * q < (n : ℚ) + s := by exact_mod_cast hlbN
  have hs' : (0 : ℚ) < (s : ℚ) := by exact_mod_cast hs
  unfold totalPages
  rw [Int.ceil_eq_iff]
  constructor
  · refine (lt_div_iff₀ hs').mpr ?_
    push_cast
    nlinarith [hlb']
  · refine (div_le_iff₀ hs').mpr ?_
    push_cast
    nlinarith [hub']

/-- C1: `UPDATE_BOOK` with a record whose identifier occurs in the collection
returns a collection of the same length in which every position holding a
record with the matching identifier now holds the new record, while every
position holding a record with a different identifier is unchanged. -/
theorem update_book_replaces_in_place (C : List Book) (r : Book)
    (h : ∃ b ∈ C, b.id = r.id) :
    (bookReducer C (ActionType.UPDATE_BOOK r)).length = C.length ∧
    ∀ i, i < C.length → ∀ b, C[i]? = some b →
      (b.id = r.id → (bookReducer C (ActionType.UPDATE_BOOK r))[i]? = some r) ∧
      (b.id ≠ r.id → (bookReducer C (ActionType.UPDATE_BOOK r))[i]? = some b) := by
  refine ⟨by simp [bookReducer], ?_⟩
  intro i hi b hb
  constructor
  · intro hid
    simp [bookReducer, List.getElem?_map, hb, hid]
  · intro hid
    simp [bookReducer, List.getElem?_map, hb, hid]

theorem update_book_replaces_in_place_witness :
    (bookReducer [duneBook, emmaBook]
      (ActionType.UPDATE_BOOK ⟨2, "Emma", "Austen", 1816⟩)).length = 2 :=
  (update_book_replaces_in_place [duneBook, emmaBook] ⟨2, "Emma", "Austen", 1816⟩
    ⟨emmaBook, by decide, rfl⟩).1

/-- C2: `DELETE_BOOK` returns a collection containing no record with the
deleted identifier, of length at most the original, that is a sublist of the
original (so surviving records keep their relative order), and every record
with a different identifier survives. -/
theorem delete_book_removes_id (C : List Book) (id : Nat) :
    (∀ b ∈ bookReducer C (ActionType.DELETE_BOOK id), b.id ≠ id) ∧
    (bookReducer C (ActionType.DELETE_BOOK id)).length ≤ C.length ∧
    (bookReducer C (ActionType.DELETE_BOOK id)).Sublist C ∧
    (∀ b ∈ C, b.id ≠ id → b ∈ bookReducer C (ActionType.DELETE_BOOK id)) := by
  refine ⟨?_, ?_, ?_, ?_⟩
  · intro b hb
    simp only [bookReducer, List.mem_filter, bne_iff_ne, ne_eq] at hb
    exact hb.2
  · exact List.length_filter_le _ C
  · exact List.filter_sublist C
  · intro b hb hne
    simp [bookReducer, List.mem_filter, hb, hne]

theorem delete_book_removes_id_witness :
    duneBook ∈ bookReducer [duneBook, emmaBook] (ActionType.DELETE_BOOK 2) :=
  (delete_book_removes_id [duneBook, emmaBook] 2).2.2.2 duneBook
    (by decide) (by decide)

/-- C3: `ADD_BOOK` with a record whose identifier does not occur in the
collection returns the collection with the record appended at the end, of
length one greater, and containing the record. -/
theorem add_book_appends_fresh (C : List Book) (r : Book)
    (h : ∀ b ∈ C, b.id ≠ r.id) :
    bookReducer C (ActionType.ADD_BOOK r) = C ++ [r] ∧
    (bookReducer C (ActionType.ADD_BOOK r)).length = C.length + 1 ∧
    r ∈ bookReducer C (ActionType.ADD_BOOK r) := by
  refine ⟨rfl, by simp [bookReducer], by simp [bookReducer]⟩

theorem add_book_appends_fresh_witness :
    bookReducer [duneBook] (ActionType.ADD_BOOK emmaBook) = [duneBook, emmaBook] :=
  (add_book_appends_fresh [duneBook] emmaBook (by decide)).1

/-- C4: when the identifier does not occur in the collection, both
`UPDATE_BOOK` and `DELETE_BOOK` return the collection unchanged: a silent
no-op, not an error. -/
theorem unmatched_update_delete_noop (C : List Book) (r : Book) (bid : Nat)
    (h1 : ∀ b ∈ C, b.id ≠ r.id) (h2 : ∀ b ∈ C, b.id ≠ bid) :
    bookReducer C (ActionType.UPDATE_BOOK r) = C ∧
    bookReducer C (ActionType.DELETE_BOOK bid) = C := by
  constructor
  · show C.map _ = C
    have hcongr : C.map (fun book => if book.id == r.id then r else book) =
        C.map id :=
      List.map_congr_left fun b hb => by simp [h1 b hb]
    rw [hcongr, List.map_id]
  · exact List.filter_eq_self.mpr fun b hb => by simp [h2 b hb]

theorem unmatched_update_delete_noop_witness :
    bookReducer [duneBook] (ActionType.UPDATE_BOOK emmaBook) = [duneBook] ∧
    bookReducer [duneBook] (ActionType.DELETE_BOOK 2) = [duneBook] :=
  unmatched_update_delete_noop [duneBook] emmaBook 2 (by decide) (by decide)

/-- C5: the title-only filter returns exactly the ordered subsequence of
records whose lowercased title contains the lowercased search text as a
substring; the three-field variant keeps a record exactly when the title or
the author matches case-insensitively or the decimal text of the year
contains the raw search text; the empty search text returns the collection
unchanged; and on the two-record example the search `em` returns exactly the
Emma record. -/
theorem filtered_books_spec (books : List Book) (search : String) :
    ((filteredBooks books search).Sublist books ∧
     (∀ b ∈ filteredBooks books search,
        (jsToLower search).data <:+: (jsToLower b.title).data) ∧
     (∀ b ∈ books, (jsToLower search).data <:+: (jsToLower b.title).data →
        b ∈ filteredBooks books search) ∧
     filteredBooks books "" = books) ∧
    ((filteredBooksAll books search).Sublist books ∧
     (∀ b ∈ filteredBooksAll books search,
        (jsToLower search).data <:+: (jsToLower b.title).data ∨
        (jsToLower search).data <:+: (jsToLower b.author).data ∨
        search.data <:+: (toString b.year).data) ∧
     (∀ b ∈ books,
        ((jsToLower search).data <:+: (jsToLower b.title).data ∨
         (jsToLower search).data <:+: (jsToLower b.author).data ∨
         search.data <:+: (toString b.year).data) →
        b ∈ filteredBooksAll books search) ∧
     filteredBooksAll books "" = books) ∧
    filteredBooks [duneBook, emmaBook] "em" = [emmaBook] ∧
    filteredBooksAll [duneBook, emmaBook] "em" = [emmaBook] := by
  refine ⟨⟨?_, ?_, ?_, ?_⟩, ⟨?_, ?_, ?_, ?_⟩, by decide, by decide⟩
  · exact List.filter_sublist books
  · intro b hb
    rw [filteredBooks, List.mem_filter] at hb
    exact (jsIncludes_iff _ _).mp hb.2
  · intro b hb hmatch
    rw [filteredBooks, List.mem_filter]
    exact ⟨hb, (jsIncludes_iff _ _).mpr hmatch⟩
  · exact List.filter_eq_self.mpr fun b hb => by
      rw [jsToLower_empty]
      simp [jsIncludes_empty]
  · exact List.filter_sublist books
  · intro b hb
    rw [filteredBooksAll, List.mem_filter] at hb
    have h3 := hb.2
    simp only [Bool.or_eq_true, jsIncludes_iff] at h3
    tauto
  · intro b hb hmatch
    rw [filteredBooksAll, List.mem_filter]
    refine ⟨hb, ?_⟩
    simp only [Bool.or_eq_true, jsIncludes_iff]
    tauto
  · exact List.filter_eq_self.mpr fun b hb => by
      rw [jsToLower_empty]
      simp [jsIncludes_empty]

theorem filtered_books_spec_witness :
    filteredBooks [duneBook, emmaBook] "em" = [emmaBook] :=
  (filtered_books_spec [duneBook, emmaBook] "em").2.2.1

/-- C6: for page number `p ≥ 1` and page size `s > 0`, the page slice equals
the elements of the filtered sequence at indices in `[(p-1)*s, p*s)`,
equivalently the first `s` elements after dropping `(p-1)*s`; when the range
starts at or past the end of the sequence the slice is empty; the slice never
exceeds `s` elements. -/
theorem current_books_page_slice (f : List Book) (p s : Nat)
    (hp : 1 ≤ p) (hs : 0 < s) :
    currentBooks f p s = (f.take (p * s)).drop ((p - 1) * s) ∧
    currentBooks f p s = (f.drop ((p - 1) * s)).take s ∧
    (currentBooks f p s).length ≤ s ∧
    (f.length ≤ (p - 1) * s → currentBooks f p s = []) := by
  have hsub : p * s - s = (p - 1) * s := by
    rw [Nat.sub_mul, Nat.one_mul]
  have hle : s ≤ p * s := by
    calc s = 1 * s := (Nat.one_mul s).symm
    _ ≤ p * s := Nat.mul_le_mul_right s hp
  have h1 : currentBooks f p s = (f.take (p * s)).drop ((p - 1) * s) := by
    show (f.take (p * s)).drop (p * s - s) = _
    rw [hsub]
  have h2 : currentBooks f p s = (f.drop ((p - 1) * s)).take s := by
    rw [h1, List.drop_take]
    congr 1
    rw [← hsub]
    exact Nat.sub_sub_self hle
  refine ⟨h1, h2, ?_, ?_⟩
  · rw [h2]
    exact (List.length_take_le _ _).trans (le_refl s)
  · intro hlen
    rw [h2, List.drop_eq_nil_of_le hlen, List.take_nil]

theorem current_books_page_slice_witness :
    currentBooks [duneBook, emmaBook] 1 5 = [duneBook, emmaBook] :=
  ((current_books_page_slice [duneBook, emmaBook] 1 5 (by decide)
    (by decide)).1).trans (by decide)

/-- C7: for page size `s > 0` the page count `Math.ceil(n / s)` equals the
natural ceiling division `(n + s - 1) / s`; it is `0` for an empty filtered
sequence; and a filtered length of `12` with page size `5` gives `3` pages. -/
theorem total_pages_ceil (n s : Nat) (hs : 0 < s) :
    totalPages n s = ((n + s - 1) / s : Nat) ∧
    totalPages 0 s = 0 ∧
    totalPages 12 5 = 3 := by
  refine ⟨totalPages_eq n s hs, ?_, ?_⟩
  · simp [totalPages]
  · rw [totalPages_eq 12 5 (by norm_num)]
    norm_num

theorem total_pages_ceil_witness : totalPages 12 5 = 3 :=
  (total_pages_ceil 12 5 (by decide)).2.2

/-- C8: `paginate` moves to the next page exactly when the current page is
below the page count, moves to the previous page exactly when the current
page is above `1`, is otherwise the identity, and in particular `next` at
page `3` with page count `3` is a no-op. -/
theorem paginate_bounds (page pageCount : Nat) :
    (page < pageCount → paginate page pageCount Direction.next = page + 1) ∧
    (¬ page < pageCount → paginate page pageCount Direction.next = page) ∧
    (1 < page → paginate page pageCount Direction.prev = page - 1) ∧
    (¬ 1 < page → paginate page pageCount Direction.prev = page) ∧
    paginate 3 3 Direction.next = 3 := by
  refine ⟨fun h => ?_, fun h => ?_, fun h => ?_, fun h => ?_, by decide⟩ <;>
    simp [paginate, h]

theorem paginate_bounds_witness :
    paginate 2 3 Direction.next = 3 ∧ paginate 3 3 Direction.next = 3 :=
  ⟨(paginate_bounds 2 3).1 (by decide), (paginate_bounds 3 3).2.2.2.2⟩

/-- C9: `SET_BOOKS` returns exactly the supplied collection, discarding the
prior collection entirely: no record of the prior state is merged in. -/
theorem set_books_replaces_wholesale (C C2 : List Book) :
    bookReducer C (ActionType.SET_BOOKS C2) = C2 := rfl

/-- C10: `ADD_BOOK` appends the record unconditionally, with no uniqueness
check on the identifier: for every collection and every record, including one
whose identifier already occurs, the result is the collection with the record
appended at the end, of length one greater. -/
theorem add_book_unconditional_append (C : List Book) (r : Book) :
    bookReducer C (ActionType.ADD_BOOK r) = C ++ [r] ∧
    (bookReducer C (ActionType.ADD_BOOK r)).length = C.length + 1 := by
  exact ⟨rfl, by simp [bookReducer]⟩

end BookRepo
